import Mathlib

/-
Shallow embedding of the client core of the bingo application (src/src/App.jsx).

The embedding covers the parts of the program the verified properties are
about: the language table and classifier, the card parser, the inbound
message dispatcher with its word-marking and best-card selection logic, and
the card transmission queue.  Pure functions of the source become Lean
functions; the stateful parts become explicit state records with step
functions; the cooperative event scheduling of the browser (effects and
timers) becomes an explicit event alphabet acting on the state.
-/

/-- Model of one entry of the LANGUAGE_CONFIGS table (rows, cols, total). -/
structure LanguageConfig where
  rows : Nat
  cols : Nat
  total : Nat
deriving DecidableEq

/-- The LANGUAGE_CONFIGS table, in declaration order (App.jsx lines 21-26). -/
def LANGUAGE_CONFIGS : List (String × LanguageConfig) :=
  [("spanish", { rows := 4, cols := 6, total := 24 }),
   ("english", { rows := 2, cols := 7, total := 14 }),
   ("portuguese", { rows := 5, cols := 4, total := 20 }),
   ("dutch", { rows := 2, cols := 5, total := 10 })]

/-- detectLanguage (App.jsx lines 28-33): first table entry whose total
equals the word count, in declaration order; "spanish" when none matches. -/
def detectLanguage (wordCount : Nat) : String :=
  match LANGUAGE_CONFIGS.find? (fun entry => entry.2.total == wordCount) with
  | some entry => entry.1
  | none => "spanish"

/-- A bingo card as built by parseTxtFile / handleManualSubmit. -/
structure BingoCard where
  id : String
  words : List String
  language : String
  markedWords : List String
  transmitted : Bool
deriving DecidableEq

/-- Splitting a character list at every occurrence of a separator, keeping
empty chunks: the behaviour of JavaScript String.prototype.split with a
single-character separator, used as content.split('\n') in parseTxtFile. -/
def splitOnElem (sep : Char) : List Char → List (List Char)
  | [] => [[]]
  | c :: rest =>
    match splitOnElem sep rest with
    | [] => if c = sep then [[], [c]] else [[c]]
    | chunk :: chunks =>
      if c = sep then [] :: chunk :: chunks
      else (c :: chunk) :: chunks

/-- A line is blank when every character is whitespace: the lines dropped by
the filter(line => line.trim()) step of parseTxtFile (App.jsx line 229). -/
def lineIsBlank (line : List Char) : Bool :=
  line.all Char.isWhitespace

/-- Accumulator-based whitespace tokenizer: pending holds the characters of
the token currently being read, in reverse. -/
def tokensAux (pending : List Char) : List Char → List (List Char)
  | [] => if pending.isEmpty then [] else [pending.reverse]
  | c :: rest =>
    if c.isWhitespace then
      if pending.isEmpty then tokensAux [] rest
      else pending.reverse :: tokensAux [] rest
    else tokensAux (c :: pending) rest

/-- The token list of a line: the behaviour of line.trim().split(/\s+/) in
parseTxtFile (App.jsx line 233) - maximal runs of non-whitespace characters,
in order, with no empty tokens. -/
def tokenize (line : List Char) : List (List Char) :=
  tokensAux [] line

/-- One iteration of the parseTxtFile loop body (App.jsx lines 232-240):
a line whose token list has at least two tokens yields a card whose id is
the first token and whose words are the remaining tokens; a line with fewer
than two tokens yields nothing.  (The source's extra words.length === 0
check is unreachable: parts.length >= 2 forces at least one word.) -/
def parseLine (line : List Char) : Option BingoCard :=
  match tokenize line with
  | cardId :: w :: ws =>
    some { id := String.mk cardId,
           words := (w :: ws).map String.mk,
           language := detectLanguage ((w :: ws).map String.mk).length,
           markedWords := [],
           transmitted := false }
  | _ => none

/-- parseTxtFile (App.jsx lines 228-242): split the content into lines,
drop blank lines, and build one card per well-formed line.  (The source's
early return for zero lines is the same as filterMap of the empty list.) -/
def parseTxtFile (content : String) : List BingoCard :=
  ((splitOnElem '\n' content.toList).filter (fun line => !lineIsBlank line)).filterMap parseLine

/-- The data.card_ids && data.card_ids.includes(card.id) test of the
word_selected handler (App.jsx line 108): an absent card_ids field makes the
test false for every card. -/
def idsInclude (cardIds : Option (List String)) (cardId : String) : Bool :=
  match cardIds with
  | some ids => ids.contains cardId
  | none => false

/-- The per-card body of the word_selected marking map (App.jsx lines
107-115): a card listed in card_ids whose word list contains the word gets
the word appended to markedWords unless it is already marked; every other
card is returned unchanged. -/
def markCard (word : String) (cardIds : Option (List String)) (card : BingoCard) : BingoCard :=
  if idsInclude cardIds card.id && card.words.contains word then
    if card.markedWords.contains word then card
    else { card with markedWords := card.markedWords ++ [word] }
  else card

/-- The prevCards.map(...) updater of the word_selected handler. -/
def markCards (cards : List BingoCard) (word : String) (cardIds : Option (List String)) :
    List BingoCard :=
  cards.map (markCard word cardIds)

/-- The four mutable bindings of the best-card scan (App.jsx lines 118-121). -/
structure SelState where
  maxMarked : Nat
  bestIndex : Nat
  maxMarkedForLanguage : Nat
  bestIndexForLanguage : Nat
deriving DecidableEq

/-- The updated.forEach((card, index) => ...) scan of the best-card selector
(App.jsx lines 123-133).  The language comparison card.language ===
data.language is against the language field of the word_selected message
itself, which may be absent (and then matches no card). -/
def selScan (msgLanguage : Option String) : List BingoCard → Nat → SelState → SelState
  | [], _, s => s
  | card :: rest, index, s =>
    let markedCount := card.markedWords.length
    let s1 :=
      if s.maxMarked < markedCount then
        { s with maxMarked := markedCount, bestIndex := index }
      else s
    let s2 :=
      if some card.language = msgLanguage ∧ s1.maxMarkedForLanguage < markedCount then
        { s1 with maxMarkedForLanguage := markedCount, bestIndexForLanguage := index }
      else s1
    selScan msgLanguage rest (index + 1) s2

/-- The deferred best-card selection step (App.jsx lines 117-136): scan all
cards from index 0 with all four bindings starting at 0, then pick the
language-restricted best index when some card of the message's language has
a positive marked count, and the global best index otherwise. -/
def selectBestCard (cards : List BingoCard) (msgLanguage : Option String) : Nat :=
  let s := selScan msgLanguage cards 0
    { maxMarked := 0, bestIndex := 0, maxMarkedForLanguage := 0, bestIndexForLanguage := 0 }
  if 0 < s.maxMarkedForLanguage then s.bestIndexForLanguage else s.bestIndex

/-- One winner entry of a round_end message (name plus the winning card). -/
structure RoundWinner where
  name : String
  card : BingoCard
deriving DecidableEq

/-- The roundResults state (App.jsx line 54). -/
structure RoundResults where
  winners : List RoundWinner
  language : String
deriving DecidableEq

/-- Decoded inbound server messages, discriminated by their type tag
(App.jsx lines 93-159).  Fields that the handler guards against being
absent (card_ids, the winners of round_end) or that the documented protocol
does not promise (the language field of word_selected) are Options; unknown
covers every unrecognized tag. -/
inductive ServerMsg where
  | player_count (count : Nat)
  | game_started
  | round_start (language : String)
  | word_selected (word : String) (cardIds : Option (List String)) (language : Option String)
  | round_end (language : String) (winners : Option (List RoundWinner))
  | game_end (winners : List String)
  | unknown
deriving DecidableEq

/-- The client state touched by the message dispatcher: the card store and
the useState bindings it drives (App.jsx lines 39-54). -/
structure AppState where
  bingoCards : List BingoCard
  selectedCardIndex : Nat
  currentWord : String
  currentLanguage : String
  playerCount : Nat
  gameStarted : Bool
  showWinnersModal : Bool
  winners : Option (List String)
  showRoundModal : Bool
  roundResults : RoundResults
deriving DecidableEq

/-- The initial values of the useState bindings (App.jsx lines 39-54). -/
def initState : AppState :=
  { bingoCards := [],
    selectedCardIndex := 0,
    currentWord := "",
    currentLanguage := "",
    playerCount := 0,
    gameStarted := false,
    showWinnersModal := false,
    winners := none,
    showRoundModal := false,
    roundResults := { winners := [], language := "" } }

/-- handleWebSocketMessage (App.jsx lines 93-159).  The word_selected case
sets the current word, applies the marking map, and then runs the deferred
best-card selection on the updated cards; round_end clears the current word
and surfaces the round results; game_end stores the winners, shows the
winners modal and hides the round modal; the default case is a no-op. -/
def handleWebSocketMessage (st : AppState) (msg : ServerMsg) : AppState :=
  match msg with
  | .player_count n => { st with playerCount := n }
  | .game_started => { st with gameStarted := true }
  | .round_start lang => { st with currentLanguage := lang }
  | .word_selected word cardIds msgLanguage =>
    let updated := markCards st.bingoCards word cardIds
    { st with currentWord := word,
              bingoCards := updated,
              selectedCardIndex := selectBestCard updated msgLanguage }
  | .round_end lang ws =>
    { st with currentWord := "",
              roundResults := { winners := ws.getD [], language := lang },
              showRoundModal := true }
  | .game_end ws =>
    { st with winners := some ws, showWinnersModal := true, showRoundModal := false }
  | .unknown => st

/-- The socket.onmessage boundary (App.jsx lines 83-90): a payload that
decodes to a message is dispatched; a payload that fails to decode (the
JSON.parse exception path) is caught, logged, and leaves the state as it
was. -/
def onMessage (st : AppState) (decoded : Option ServerMsg) : AppState :=
  match decoded with
  | some msg => handleWebSocketMessage st msg
  | none => st

/-- The payload serialized by sendBingoCard (App.jsx lines 163-170): only
id, words and language are sent. -/
structure CardPayload where
  id : String
  words : List String
  language : String
deriving DecidableEq

/-- The card fields that sendBingoCard serializes. -/
def payloadOf (card : BingoCard) : CardPayload :=
  { id := card.id, words := card.words, language := card.language }

/-- State of the transmission subsystem: the card store, the isTransmitting
flag, the pending 100ms timer of transmitNextCard holding the updatedCards
snapshot its closure captured, the readyState of the socket, and two
observation traces: sendCalls records every card handed to sendBingoCard,
wire records the frames actually written to the open socket. -/
structure TxState where
  bingoCards : List BingoCard
  isTransmitting : Bool
  pendingTimer : Option (List BingoCard)
  wsOpen : Bool
  sendCalls : List CardPayload
  wire : List CardPayload
deriving DecidableEq

/-- sendBingoCard (App.jsx lines 161-172): writes the card payload on the
socket when it is open, and does nothing at all otherwise. -/
def sendBingoCard (s : TxState) (card : BingoCard) : TxState :=
  if s.wsOpen then { s with wire := s.wire ++ [payloadOf card] } else s

/-- The prevCards.map((c, idx) => idx === untransmittedIndex ? { ...c,
transmitted: true } : c) updater of transmitNextCard (App.jsx lines
194-196): mark the card at the given position transmitted, leave every
other card unchanged. -/
def markTransmittedAt : List BingoCard → Nat → List BingoCard
  | [], _ => []
  | card :: rest, 0 => { card with transmitted := true } :: rest
  | card :: rest, n + 1 => card :: markTransmittedAt rest n

/-- transmitNextCard (App.jsx lines 185-207): find the first untransmitted
card; when none exists clear isTransmitting; otherwise hand the card to
sendBingoCard, mark it transmitted, and schedule the 100ms timer whose
closure captures the updatedCards snapshot.  (The inner none branch is
unreachable: findIdx? only returns indices inside the list.) -/
def transmitNextCard (s : TxState) : TxState :=
  match s.bingoCards.findIdx? (fun card => !card.transmitted) with
  | none => { s with isTransmitting := false }
  | some untransmittedIndex =>
    match s.bingoCards[untransmittedIndex]? with
    | none => s
    | some card =>
      let s1 := sendBingoCard { s with sendCalls := s.sendCalls ++ [payloadOf card] } card
      let updatedCards := markTransmittedAt s.bingoCards untransmittedIndex
      { s1 with bingoCards := updatedCards, pendingTimer := some updatedCards }

/-- The events the transmission subsystem reacts to: a nonempty batch of
cards appended to the store (handleFileUpload / handleManualSubmit, which
reruns the length-keyed effect of App.jsx lines 176-183), the pending
transmitNextCard timer firing (App.jsx lines 197-204), and the socket
leaving the open state. -/
inductive TxEvent where
  | addCards (newCards : List BingoCard)
  | timerFires
  | socketCloses
deriving DecidableEq

/-- One step of the transmission subsystem.  addCards appends the new cards
and runs the effect of App.jsx lines 176-183 (which only reruns because the
store length changed, so an empty batch runs nothing): when the store has
an untransmitted card and no drain is running, start one.  timerFires runs
the setTimeout callback of App.jsx lines 197-204: it consults the
updatedCards snapshot captured by the closure, recursing into
transmitNextCard when the snapshot still has an untransmitted card and
clearing isTransmitting otherwise. -/
def txStep (s : TxState) (e : TxEvent) : TxState :=
  match e with
  | .addCards newCards =>
    if newCards.isEmpty then s
    else
      let s1 := { s with bingoCards := s.bingoCards ++ newCards }
      if s1.bingoCards.length ≠ 0 ∧ s1.bingoCards.any (fun card => !card.transmitted) = true ∧
          ¬ s1.isTransmitting = true then
        transmitNextCard { s1 with isTransmitting := true }
      else s1
  | .timerFires =>
    match s.pendingTimer with
    | none => s
    | some updatedCards =>
      let s1 := { s with pendingTimer := none }
      if updatedCards.any (fun card => !card.transmitted) then transmitNextCard s1
      else { s1 with isTransmitting := false }
  | .socketCloses => { s with wsOpen := false }

/-- The transmission subsystem before any card is loaded: empty store, no
drain, no pending timer, socket open, nothing sent. -/
def txInit : TxState :=
  { bingoCards := [],
    isTransmitting := false,
    pendingTimer := none,
    wsOpen := true,
    sendCalls := [],
    wire := [] }

/-- Run the transmission subsystem from its initial state over a sequence
of events. -/
def txRun (events : List TxEvent) : TxState :=
  events.foldl txStep txInit

/-- Cards enter the store through the parser, which always sets
transmitted := false: an addCards batch consists of untransmitted cards.
The other events carry no data. -/
def validEvent : TxEvent → Prop
  | .addCards newCards => ∀ card ∈ newCards, card.transmitted = false
  | .timerFires => True
  | .socketCloses => True

/-- The generic one-pass maximum scan underlying both halves of the
best-card selector: carry (current maximum, index of the card that set it),
updating on every card that satisfies the predicate and strictly exceeds
the current maximum. -/
def scanPair (p : BingoCard → Prop) [DecidablePred p] :
    List BingoCard → Nat → Nat × Nat → Nat × Nat
  | [], _, mb => mb
  | card :: rest, index, mb =>
    scanPair p rest (index + 1)
      (if p card ∧ mb.1 < card.markedWords.length
       then (card.markedWords.length, index) else mb)


/-- Concrete card A of the selector example: language es, 2 marked words. -/
def exCardA : BingoCard :=
  { id := "A", words := ["a1", "a2", "a3"], language := "es",
    markedWords := ["a1", "a2"], transmitted := true }

/-- Concrete card B of the selector example: language es, 2 marked words. -/
def exCardB : BingoCard :=
  { id := "B", words := ["b1", "b2", "b3"], language := "es",
    markedWords := ["b1", "b2"], transmitted := true }

/-- Concrete card C of the selector example: language en, 5 marked words. -/
def exCardC : BingoCard :=
  { id := "C", words := ["c1", "c2", "c3", "c4", "c5"], language := "en",
    markedWords := ["c1", "c2", "c3", "c4", "c5"], transmitted := true }

/-- Concrete unmarked card for exercising the marking lemmas. -/
def idemCard : BingoCard :=
  { id := "X", words := ["w"], language := "spanish", markedWords := [], transmitted := false }

/-- Concrete card for exercising the frame lemma. -/
def frameCard : BingoCard :=
  { id := "Y", words := ["u", "v"], language := "spanish", markedWords := [], transmitted := false }

/-- First card of the stuck-transmission trace. -/
def stuckCard1 : BingoCard :=
  { id := "K1", words := ["a"], language := "spanish", markedWords := [], transmitted := false }

/-- Second card of the stuck-transmission trace: it arrives while the first
card's pacing timer is still pending. -/
def stuckCard2 : BingoCard :=
  { id := "K2", words := ["b"], language := "spanish", markedWords := [], transmitted := false }

/-- The stuck-transmission event sequence: one card is added and drained,
a second card is added during the 100ms pacing delay, and then the pending
timer fires. -/
def stuckEvents : List TxEvent :=
  [.addCards [stuckCard1], .addCards [stuckCard2], .timerFires]

/-- A transmission state with a closed socket and one untransmitted card,
for exercising the send-failure theorem. -/
def closedSocketState : TxState :=
  { bingoCards := [stuckCard1], isTransmitting := true, pendingTimer := none,
    wsOpen := false, sendCalls := [], wire := [] }

/-- Invariant of the transmission subsystem: the store is a transmitted
prefix followed by an untransmitted suffix, and the cards handed to
sendBingoCard are exactly the transmitted prefix, in store order. -/
def TxInv (s : TxState) : Prop :=
  ∃ A B, s.bingoCards = A ++ B ∧ (∀ c ∈ A, c.transmitted = true) ∧
    (∀ c ∈ B, c.transmitted = false) ∧ s.sendCalls = A.map payloadOf

/- Helper lemmas about the marking map. -/

/-- A card that fails the card_ids/words test is returned unchanged. -/
theorem markCard_of_not_match (word : String) (cardIds : Option (List String)) (card : BingoCard)
    (h : ¬ (idsInclude cardIds card.id = true ∧ word ∈ card.words)) :
    markCard word cardIds card = card := by
  have hcond : ¬ (idsInclude cardIds card.id && card.words.contains word) = true := by
    simpa [Bool.and_eq_true] using h
  rw [markCard, if_neg hcond]

/-- A card whose word is already marked is returned unchanged. -/
theorem markCard_of_mem_marked (word : String) (cardIds : Option (List String)) (card : BingoCard)
    (h : word ∈ card.markedWords) :
    markCard word cardIds card = card := by
  rw [markCard]
  split
  · rw [if_pos (by simpa using h)]
  · rfl

/-- A matching card that is not yet marked gets the word appended. -/
theorem markCard_of_new (word : String) (cardIds : Option (List String)) (card : BingoCard)
    (h1 : idsInclude cardIds card.id = true) (h2 : word ∈ card.words)
    (h3 : word ∉ card.markedWords) :
    markCard word cardIds card = { card with markedWords := card.markedWords ++ [word] } := by
  rw [markCard, if_pos (by simp [Bool.and_eq_true, h1, h2]),
    if_neg (by simpa using h3)]

/-- Marking the same word twice on one card is the same as marking it once. -/
theorem markCard_idem (word : String) (cardIds : Option (List String)) (card : BingoCard) :
    markCard word cardIds (markCard word cardIds card) = markCard word cardIds card := by
  by_cases h1 : idsInclude cardIds card.id = true ∧ word ∈ card.words
  · by_cases h3 : word ∈ card.markedWords
    · rw [markCard_of_mem_marked word cardIds card h3]
      exact markCard_of_mem_marked word cardIds card h3
    · rw [markCard_of_new word cardIds card h1.1 h1.2 h3]
      exact markCard_of_mem_marked word cardIds _ (by simp)
  · rw [markCard_of_not_match word cardIds card h1]
    exact markCard_of_not_match word cardIds card h1

/-- The marking map leaves the id of every card unchanged. -/
theorem markCard_id (word : String) (cardIds : Option (List String)) (card : BingoCard) :
    (markCard word cardIds card).id = card.id := by
  rw [markCard]
  split
  · split <;> rfl
  · rfl

/-- The marking map leaves the word list of every card unchanged. -/
theorem markCard_words (word : String) (cardIds : Option (List String)) (card : BingoCard) :
    (markCard word cardIds card).words = card.words := by
  rw [markCard]
  split
  · split <;> rfl
  · rfl

/-- The marking map leaves the language of every card unchanged. -/
theorem markCard_language (word : String) (cardIds : Option (List String)) (card : BingoCard) :
    (markCard word cardIds card).language = card.language := by
  rw [markCard]
  split
  · split <;> rfl
  · rfl

/-- The marking map leaves the transmitted flag of every card unchanged. -/
theorem markCard_transmitted (word : String) (cardIds : Option (List String)) (card : BingoCard) :
    (markCard word cardIds card).transmitted = card.transmitted := by
  rw [markCard]
  split
  · split <;> rfl
  · rfl

/-- The marking map either keeps markedWords or appends exactly the one word. -/
theorem markCard_markedWords (word : String) (cardIds : Option (List String)) (card : BingoCard) :
    (markCard word cardIds card).markedWords = card.markedWords ∨
    (markCard word cardIds card).markedWords = card.markedWords ++ [word] := by
  rw [markCard]
  split
  · split
    · exact Or.inl rfl
    · exact Or.inr rfl
  · exact Or.inl rfl

/-- C3.  The claim says a game_end message always leaves currentWord empty.
It does not: the game_end case of handleWebSocketMessage never touches
currentWord, so a game_end arriving after a word_selected (with no
round_end in between) leaves the selected word in place.  Concretely, from
the initial state, processing word_selected "casa" and then game_end
leaves currentWord = "casa". -/
theorem game_end_counterexample :
    ¬ ((handleWebSocketMessage
          (handleWebSocketMessage initState (.word_selected "casa" none none))
          (.game_end ["Ana"])).currentWord = "") := by decide

/-- C3 (amended).  Processing a game_end message stores the game result
(winners) and shows the winners modal, suppresses any pending round-result
display (showRoundModal becomes false), and leaves currentWord exactly as
it was - it is not cleared by game_end. -/
theorem game_end_effects :
    ∀ (st : AppState) (ws : List String),
      (handleWebSocketMessage st (.game_end ws)).winners = some ws ∧
      (handleWebSocketMessage st (.game_end ws)).showWinnersModal = true ∧
      (handleWebSocketMessage st (.game_end ws)).showRoundModal = false ∧
      (handleWebSocketMessage st (.game_end ws)).currentWord = st.currentWord ∧
      (handleWebSocketMessage st (.game_end ws)).bingoCards = st.bingoCards := by
  intro st ws
  exact ⟨rfl, rfl, rfl, rfl, rfl⟩

/-- C4.  For every word count n, detectLanguage returns the language of any
table entry whose total equals n (the totals are pairwise distinct, so that
language is unique), and returns the default "spanish" when no entry's
total equals n.  detectLanguage is a total function, so it is deterministic
and never fails by construction. -/
theorem detectLanguage_correct :
    ∀ n : Nat,
      (∀ (lang : String) (cfg : LanguageConfig),
        (lang, cfg) ∈ LANGUAGE_CONFIGS → cfg.total = n → detectLanguage n = lang) ∧
      ((∀ entry ∈ LANGUAGE_CONFIGS, entry.2.total ≠ n) → detectLanguage n = "spanish") := by
  intro n
  constructor
  · intro lang cfg hmem htot
    subst htot
    simp only [LANGUAGE_CONFIGS, List.mem_cons, List.not_mem_nil, or_false,
      Prod.mk.injEq] at hmem
    rcases hmem with ⟨h1, h2⟩ | ⟨h1, h2⟩ | ⟨h1, h2⟩ | ⟨h1, h2⟩ <;> subst h1 <;> subst h2 <;> rfl
  · intro h
    have hfind : LANGUAGE_CONFIGS.find? (fun entry => entry.2.total == n) = none := by
      rw [List.find?_eq_none]
      intro x hx
      simpa using h x hx
    rw [detectLanguage, hfind]

/-- C4 witness: a word count of 14 classifies as english, and a word count
matching no profile falls back to spanish. -/
theorem detectLanguage_correct_witness :
    detectLanguage 14 = "english" ∧ detectLanguage 7 = "spanish" :=
  ⟨(detectLanguage_correct 14).1 "english" { rows := 2, cols := 7, total := 14 } (by decide) rfl,
   (detectLanguage_correct 7).2 (by decide)⟩

/-- C5.  Card parsing: parseTxtFile splits the content into lines and keeps
one card per non-blank line whose token list has at least two tokens - the
id is the first token, the words are the remaining tokens in order, and the
card starts untransmitted with no marked words; a line with fewer than two
tokens yields no card.  Parsing "C1 a b c\nC2 x y" yields exactly the two
cards C1 = [a, b, c] and C2 = [x, y], and a file of single-token lines
yields no cards. -/
theorem card_parsing :
    (∀ content : String,
      parseTxtFile content =
        ((splitOnElem '\n' content.toList).filter
          (fun line => !lineIsBlank line)).filterMap parseLine) ∧
    (∀ (line cardId w : List Char) (ws : List (List Char)),
      tokenize line = cardId :: w :: ws →
      parseLine line =
        some { id := String.mk cardId,
               words := (w :: ws).map String.mk,
               language := detectLanguage ((w :: ws).map String.mk).length,
               markedWords := [],
               transmitted := false }) ∧
    (∀ line : List Char, (tokenize line).length < 2 → parseLine line = none) ∧
    parseTxtFile "C1 a b c\nC2 x y" =
      [{ id := "C1", words := ["a", "b", "c"], language := "spanish",
         markedWords := [], transmitted := false },
       { id := "C2", words := ["x", "y"], language := "spanish",
         markedWords := [], transmitted := false }] ∧
    parseTxtFile "alpha\nbeta\n\ngamma" = [] := by
  refine ⟨fun content => rfl, ?_, ?_, by decide, by decide⟩
  · intro line cardId w ws htok
    rw [parseLine, htok]
  · intro line hlen
    rw [parseLine]
    rcases htok : tokenize line with _ | ⟨a, _ | ⟨b, rest⟩⟩
    · rfl
    · rfl
    · rw [htok] at hlen
      simp at hlen
      omega

/-- C5 witness: a two-token line parses to one card, a one-token line to
none. -/
theorem card_parsing_witness :
    parseLine "K1 w1 w2".toList =
      some { id := String.mk "K1".toList,
             words := ("w1".toList :: ["w2".toList]).map String.mk,
             language := detectLanguage (("w1".toList :: ["w2".toList]).map String.mk).length,
             markedWords := [],
             transmitted := false } ∧
    parseLine "solo".toList = none :=
  ⟨card_parsing.2.1 "K1 w1 w2".toList "K1".toList "w1".toList ["w2".toList] (by decide),
   card_parsing.2.2.1 "solo".toList (by decide)⟩

/-- C6.  Word marking: a word_selected event adds the word to the
markedWords of exactly those cards whose id is listed in card_ids and whose
word list contains the word (and that do not already carry the mark); every
other card keeps its markedWords, and a second application of the same
event changes nothing (idempotence - no duplicate entries are added).  The
word_selected case of the dispatcher applies exactly this marking map to
the card store. -/
theorem word_marking_idempotent :
    (∀ (cards : List BingoCard) (word : String) (cardIds : Option (List String))
        (k : Nat) (c : BingoCard),
      cards[k]? = some c →
      ((idsInclude cardIds c.id = true ∧ word ∈ c.words ∧ word ∉ c.markedWords →
         (markCards cards word cardIds)[k]? =
           some { c with markedWords := c.markedWords ++ [word] }) ∧
       (word ∈ c.markedWords →
         (markCards cards word cardIds)[k]? = some c) ∧
       (¬ (idsInclude cardIds c.id = true ∧ word ∈ c.words) →
         (markCards cards word cardIds)[k]? = some c))) ∧
    (∀ (cards : List BingoCard) (word : String) (cardIds : Option (List String)),
      markCards (markCards cards word cardIds) word cardIds =
        markCards cards word cardIds) ∧
    (∀ (st : AppState) (word : String) (cardIds : Option (List String))
        (msgLanguage : Option String),
      (handleWebSocketMessage st (.word_selected word cardIds msgLanguage)).bingoCards =
        markCards st.bingoCards word cardIds) := by
  refine ⟨?_, ?_, fun st word cardIds msgLanguage => rfl⟩
  · intro cards word cardIds k c hk
    have hmap : (markCards cards word cardIds)[k]? = some (markCard word cardIds c) := by
      rw [markCards, List.getElem?_map, hk, Option.map_some']
    refine ⟨?_, ?_, ?_⟩
    · intro ⟨h1, h2, h3⟩
      rw [hmap, markCard_of_new word cardIds c h1 h2 h3]
    · intro h
      rw [hmap, markCard_of_mem_marked word cardIds c h]
    · intro h
      rw [hmap, markCard_of_not_match word cardIds c h]
  · intro cards word cardIds
    simp only [markCards, List.map_map]
    exact List.map_congr_left fun c _ => markCard_idem word cardIds c

/-- C6 witness: marking "w" on a matching unmarked card appends it, and
re-delivering the event leaves the store unchanged. -/
theorem word_marking_idempotent_witness :
    (markCards [idemCard] "w" (some ["X"]))[0]? =
      some { idemCard with markedWords := idemCard.markedWords ++ ["w"] } ∧
    markCards (markCards [idemCard] "w" (some ["X"])) "w" (some ["X"]) =
      markCards [idemCard] "w" (some ["X"]) :=
  ⟨(word_marking_idempotent.1 [idemCard] "w" (some ["X"]) 0 idemCard rfl).1
     ⟨by decide, by decide, by decide⟩,
   word_marking_idempotent.2.1 [idemCard] "w" (some ["X"])⟩

/-- C9.  Frame property of word marking: the marking map preserves the
store's length and order, and for every card it preserves id, words,
language and transmitted; a card's markedWords either stays unchanged or
grows by exactly the one selected word appended at the end, and a card
failing the card_ids/words test is wholly unchanged. -/
theorem word_marking_frame :
    ∀ (cards : List BingoCard) (word : String) (cardIds : Option (List String)),
      (markCards cards word cardIds).length = cards.length ∧
      (∀ (k : Nat) (c : BingoCard), cards[k]? = some c →
        ∃ c2, (markCards cards word cardIds)[k]? = some c2 ∧
          c2.id = c.id ∧ c2.words = c.words ∧ c2.language = c.language ∧
          c2.transmitted = c.transmitted ∧
          (c2.markedWords = c.markedWords ∨ c2.markedWords = c.markedWords ++ [word]) ∧
          (¬ (idsInclude cardIds c.id = true ∧ word ∈ c.words) → c2 = c)) := by
  intro cards word cardIds
  constructor
  · simp only [markCards, List.length_map]
  · intro k c hk
    refine ⟨markCard word cardIds c, ?_, markCard_id word cardIds c,
      markCard_words word cardIds c, markCard_language word cardIds c,
      markCard_transmitted word cardIds c, markCard_markedWords word cardIds c,
      markCard_of_not_match word cardIds c⟩
    rw [markCards, List.getElem?_map, hk, Option.map_some']

/-- C9 witness: the frame property evaluated on a concrete one-card store. -/
theorem word_marking_frame_witness :
    ∃ c2, (markCards [frameCard] "w" (some ["X"]))[0]? = some c2 ∧
      c2.id = frameCard.id ∧ c2.words = frameCard.words ∧
      c2.language = frameCard.language ∧ c2.transmitted = frameCard.transmitted ∧
      (c2.markedWords = frameCard.markedWords ∨
        c2.markedWords = frameCard.markedWords ++ ["w"]) ∧
      (¬ (idsInclude (some ["X"]) frameCard.id = true ∧ "w" ∈ frameCard.words) →
        c2 = frameCard) :=
  (word_marking_frame [frameCard] "w" (some ["X"])).2 0 frameCard rfl

/-- C10.  A word_selected message without a card_ids field still sets
currentWord to the message's word, and leaves the card store - in
particular every card's markedWords - unchanged: the guard
data.card_ids && ... fails for every card, so nothing is marked and the
dispatcher (a total function) does not crash. -/
theorem word_selected_without_card_ids :
    ∀ (st : AppState) (word : String) (msgLanguage : Option String),
      (handleWebSocketMessage st (.word_selected word none msgLanguage)).currentWord = word ∧
      (handleWebSocketMessage st (.word_selected word none msgLanguage)).bingoCards =
        st.bingoCards := by
  intro st word msgLanguage
  have hmark : markCards st.bingoCards word none = st.bingoCards := by
    rw [markCards]
    have heach : ∀ c ∈ st.bingoCards, markCard word none c = c := fun c _ =>
      markCard_of_not_match word none c (by simp [idsInclude])
    calc st.bingoCards.map (markCard word none)
        = st.bingoCards.map id := List.map_congr_left fun c hc => heach c hc
      _ = st.bingoCards := List.map_id st.bingoCards
  exact ⟨rfl, by simpa [handleWebSocketMessage] using hmark⟩

/-- C8.  Dispatcher robustness: a payload that fails to decode is caught at
the onmessage boundary and leaves the state untouched, and a decoded
message with an unrecognized type tag falls into the default case, which is
a no-op; both paths are total, so the dispatcher neither crashes nor leaves
the state partially updated. -/
theorem dispatcher_robustness :
    ∀ st : AppState, onMessage st none = st ∧ handleWebSocketMessage st .unknown = st := by
  intro st
  exact ⟨rfl, rfl⟩

/- Helper lemmas about the best-card scan. -/

/-- An element returned by optional indexing is a member of the list. -/
theorem mem_of_some_getElem? {α : Type} {l : List α} {n : Nat} {a : α}
    (h : l[n]? = some a) : a ∈ l := by
  obtain ⟨hlt, heq⟩ := List.getElem?_eq_some.mp h
  exact heq ▸ List.getElem_mem hlt

/-- Unfolding scanPair over an empty list. -/
theorem scanPair_nil (p : BingoCard → Prop) [DecidablePred p] (i m b : Nat) :
    scanPair p [] i (m, b) = (m, b) := rfl

/-- Unfolding scanPair over a cons cell. -/
theorem scanPair_cons (p : BingoCard → Prop) [DecidablePred p]
    (card : BingoCard) (rest : List BingoCard) (i m b : Nat) :
    scanPair p (card :: rest) i (m, b) =
      scanPair p rest (i + 1)
        (if p card ∧ m < card.markedWords.length
         then (card.markedWords.length, i) else (m, b)) := rfl

/-- When no remaining card beats the carried maximum, the scan returns its
carried pair unchanged. -/
theorem scanPair_stable (p : BingoCard → Prop) [DecidablePred p] :
    ∀ (cs : List BingoCard) (i m b : Nat),
      (∀ c ∈ cs, p c → c.markedWords.length ≤ m) →
      scanPair p cs i (m, b) = (m, b) := by
  intro cs
  induction cs with
  | nil => intro i m b _; rfl
  | cons card rest ih =>
    intro i m b h
    rw [scanPair_cons, if_neg]
    · exact ih (i + 1) m b fun c hc hp => h c (by simp [hc]) hp
    · intro ⟨hp, hm⟩
      exact absurd (h card (by simp) hp) (by omega)

/-- When some remaining card beats the carried maximum, the scan returns
the marked count and absolute index of the first card attaining the
maximum count among the cards that satisfy the predicate and beat the
carried maximum; that count bounds every predicate-satisfying card of the
list, and every earlier predicate-satisfying card is strictly below it. -/
theorem scanPair_found (p : BingoCard → Prop) [DecidablePred p] :
    ∀ (cs : List BingoCard) (i m b : Nat),
      (∃ c ∈ cs, p c ∧ m < c.markedWords.length) →
      ∃ j cj, cs[j]? = some cj ∧
        scanPair p cs i (m, b) = (cj.markedWords.length, i + j) ∧
        p cj ∧ m < cj.markedWords.length ∧
        (∀ (k : Nat) (ck : BingoCard), cs[k]? = some ck → p ck →
          ck.markedWords.length ≤ cj.markedWords.length) ∧
        (∀ (k : Nat) (ck : BingoCard), k < j → cs[k]? = some ck → p ck →
          ck.markedWords.length < cj.markedWords.length) := by
  intro cs
  induction cs with
  | nil => intro i m b h; simp at h
  | cons card rest ih =>
    intro i m b hex
    by_cases hcond : p card ∧ m < card.markedWords.length
    · by_cases hex2 : ∃ c ∈ rest, p c ∧ card.markedWords.length < c.markedWords.length
      · obtain ⟨j, cj, hj, heq, hp, hlt, hmax, hstrict⟩ :=
          ih (i + 1) card.markedWords.length i hex2
        refine ⟨j + 1, cj, by simpa using hj, ?_, hp, by omega, ?_, ?_⟩
        · rw [scanPair_cons, if_pos hcond, heq]
          have : i + 1 + j = i + (j + 1) := by omega
          rw [this]
        · intro k ck hk hpk
          match k with
          | 0 =>
            simp only [List.getElem?_cons_zero, Option.some.injEq] at hk
            subst hk
            omega
          | k + 1 =>
            exact hmax k ck (by simpa using hk) hpk
        · intro k ck hklt hk hpk
          match k with
          | 0 =>
            simp only [List.getElem?_cons_zero, Option.some.injEq] at hk
            subst hk
            exact hlt
          | k + 1 =>
            exact hstrict k ck (by omega) (by simpa using hk) hpk
      · push_neg at hex2
        have hstable := scanPair_stable p rest (i + 1) card.markedWords.length i hex2
        refine ⟨0, card, by simp, ?_, hcond.1, hcond.2, ?_, ?_⟩
        · rw [scanPair_cons, if_pos hcond, hstable]
          simp
        · intro k ck hk hpk
          match k with
          | 0 =>
            simp only [List.getElem?_cons_zero, Option.some.injEq] at hk
            subst hk
            exact Nat.le_refl _
          | k + 1 =>
            exact hex2 ck (mem_of_some_getElem? (by simpa using hk)) hpk
        · intro k ck hklt _ _
          omega
    · have hex2 : ∃ c ∈ rest, p c ∧ m < c.markedWords.length := by
        obtain ⟨c, hc, hpc, hmc⟩ := hex
        rcases List.mem_cons.mp hc with rfl | hcr
        · exact absurd ⟨hpc, hmc⟩ hcond
        · exact ⟨c, hcr, hpc, hmc⟩
      obtain ⟨j, cj, hj, heq, hp, hlt, hmax, hstrict⟩ := ih (i + 1) m b hex2
      have hcard : p card → card.markedWords.length ≤ m := by
        intro hp2
        by_contra hgt
        exact hcond ⟨hp2, by omega⟩
      refine ⟨j + 1, cj, by simpa using hj, ?_, hp, hlt, ?_, ?_⟩
      · rw [scanPair_cons, if_neg hcond, heq]
        have : i + 1 + j = i + (j + 1) := by omega
        rw [this]
      · intro k ck hk hpk
        match k with
        | 0 =>
          simp only [List.getElem?_cons_zero, Option.some.injEq] at hk
          subst hk
          have := hcard hpk
          omega
        | k + 1 =>
          exact hmax k ck (by simpa using hk) hpk
      · intro k ck hklt hk hpk
        match k with
        | 0 =>
          simp only [List.getElem?_cons_zero, Option.some.injEq] at hk
          subst hk
          have := hcard hpk
          omega
        | k + 1 =>
          exact hstrict k ck (by omega) (by simpa using hk) hpk

/-- One step of selScan in terms of the four carried values. -/
theorem selScan_cons_eq (msgLanguage : Option String) (card : BingoCard)
    (rest : List BingoCard) (i : Nat) (s : SelState) :
    selScan msgLanguage (card :: rest) i s =
      selScan msgLanguage rest (i + 1)
        { maxMarked :=
            if s.maxMarked < card.markedWords.length
            then card.markedWords.length else s.maxMarked,
          bestIndex :=
            if s.maxMarked < card.markedWords.length then i else s.bestIndex,
          maxMarkedForLanguage :=
            if some card.language = msgLanguage ∧
                s.maxMarkedForLanguage < card.markedWords.length
            then card.markedWords.length else s.maxMarkedForLanguage,
          bestIndexForLanguage :=
            if some card.language = msgLanguage ∧
                s.maxMarkedForLanguage < card.markedWords.length
            then i else s.bestIndexForLanguage } := by
  simp only [selScan]
  congr 1
  by_cases h1 : s.maxMarked < card.markedWords.length <;>
    by_cases h2 : some card.language = msgLanguage ∧
      s.maxMarkedForLanguage < card.markedWords.length <;>
    simp [h1, h2]

/-- The global pair of the selector scan is the generic maximum scan with
the always-true predicate. -/
theorem selScan_global (msgLanguage : Option String) :
    ∀ (cs : List BingoCard) (i : Nat) (s : SelState),
      ((selScan msgLanguage cs i s).maxMarked, (selScan msgLanguage cs i s).bestIndex) =
        scanPair (fun _ => True) cs i (s.maxMarked, s.bestIndex) := by
  intro cs
  induction cs with
  | nil => intro i s; rfl
  | cons card rest ih =>
    intro i s
    rw [selScan_cons_eq, scanPair_cons, ih]
    congr 1
    by_cases h1 : s.maxMarked < card.markedWords.length <;> simp [h1]

/-- The language-restricted pair of the selector scan is the generic
maximum scan with the language-equality predicate. -/
theorem selScan_language (msgLanguage : Option String) :
    ∀ (cs : List BingoCard) (i : Nat) (s : SelState),
      ((selScan msgLanguage cs i s).maxMarkedForLanguage,
        (selScan msgLanguage cs i s).bestIndexForLanguage) =
        scanPair (fun c => some c.language = msgLanguage) cs i
          (s.maxMarkedForLanguage, s.bestIndexForLanguage) := by
  intro cs
  induction cs with
  | nil => intro i s; rfl
  | cons card rest ih =>
    intro i s
    rw [selScan_cons_eq, scanPair_cons, ih]
    congr 1
    by_cases h2 : some card.language = msgLanguage ∧
        s.maxMarkedForLanguage < card.markedWords.length <;>
      simp [h2]

/-- When no card matching the message's language field has a positive
marked count, the selector falls back to the global scan: it returns the
index of the first card attaining the maximum marked count, and 0 when no
card has any marks. -/
theorem selectBestCard_global (cards : List BingoCard) (msgLanguage : Option String)
    (hdead : ∀ c ∈ cards, some c.language = msgLanguage → c.markedWords.length = 0) :
    ((∃ c ∈ cards, 0 < c.markedWords.length) →
      ∃ j cj, cards[j]? = some cj ∧ selectBestCard cards msgLanguage = j ∧
        (∀ (k : Nat) (ck : BingoCard), cards[k]? = some ck →
          ck.markedWords.length ≤ cj.markedWords.length) ∧
        (∀ (k : Nat) (ck : BingoCard), k < j → cards[k]? = some ck →
          ck.markedWords.length < cj.markedWords.length)) ∧
    ((∀ c ∈ cards, c.markedWords.length = 0) → selectBestCard cards msgLanguage = 0) := by
  have hstab : ∀ c ∈ cards, (some c.language = msgLanguage) → c.markedWords.length ≤ 0 :=
    fun c hc hp => by have := hdead c hc hp; omega
  have hlangpair : ((selScan msgLanguage cards 0 ⟨0, 0, 0, 0⟩).maxMarkedForLanguage,
      (selScan msgLanguage cards 0 ⟨0, 0, 0, 0⟩).bestIndexForLanguage) =
      scanPair (fun c => some c.language = msgLanguage) cards 0 (0, 0) :=
    selScan_language msgLanguage cards 0 ⟨0, 0, 0, 0⟩
  rw [scanPair_stable _ cards 0 0 0 hstab, Prod.mk.injEq] at hlangpair
  obtain ⟨hm0, _⟩ := hlangpair
  have hglobalpair : ((selScan msgLanguage cards 0 ⟨0, 0, 0, 0⟩).maxMarked,
      (selScan msgLanguage cards 0 ⟨0, 0, 0, 0⟩).bestIndex) =
      scanPair (fun _ => True) cards 0 (0, 0) :=
    selScan_global msgLanguage cards 0 ⟨0, 0, 0, 0⟩
  constructor
  · intro hgex
    have hgex2 : ∃ c ∈ cards, (fun _ : BingoCard => True) c ∧ 0 < c.markedWords.length := by
      obtain ⟨c, hc, h2⟩ := hgex
      exact ⟨c, hc, trivial, h2⟩
    obtain ⟨j, cj, hj, heq, _, hlt, hmax, hstrict⟩ :=
      scanPair_found (fun _ => True) cards 0 0 0 hgex2
    rw [heq, Prod.mk.injEq] at hglobalpair
    obtain ⟨hgm, hgb⟩ := hglobalpair
    refine ⟨j, cj, hj, ?_, ?_, ?_⟩
    · simp only [selectBestCard]
      rw [hm0, hgb, if_neg (by omega)]
      omega
    · intro k ck hk
      exact hmax k ck hk trivial
    · intro k ck hklt hk
      exact hstrict k ck hklt hk trivial
  · intro hall
    have hgstab : ∀ c ∈ cards, (fun _ : BingoCard => True) c → c.markedWords.length ≤ 0 :=
      fun c hc _ => by have := hall c hc; omega
    rw [scanPair_stable _ cards 0 0 0 hgstab, Prod.mk.injEq] at hglobalpair
    obtain ⟨_, hgb⟩ := hglobalpair
    simp only [selectBestCard]
    rw [hm0, hgb, if_neg (by omega)]

/-- C1 counterexample.  The claim keys selection to the round's current
language and expects index 0 (card A) on the A/B/C example.  The code
(App.jsx line 129) compares card.language === data.language, the language
field of the word_selected message itself; the documented word_selected
message carries only type, word and card_ids, so data.language is absent,
no card ever matches the language test, and the selector falls back to the
global best.  Concretely: on the store [A (es, 2 marked), B (es, 2 marked),
C (en, 5 marked)] with round language es, a word_selected message without a
language field makes the dispatcher select index 2 (card C, the global
maximum), not index 0 (card A). -/
theorem best_card_counterexample :
    (handleWebSocketMessage
      { initState with bingoCards := [exCardA, exCardB, exCardC], currentLanguage := "es" }
      (.word_selected "a1" (some ["A"]) none)).selectedCardIndex = 2 ∧
    ¬ ((handleWebSocketMessage
      { initState with bingoCards := [exCardA, exCardB, exCardC], currentLanguage := "es" }
      (.word_selected "a1" (some ["A"]) none)).selectedCardIndex = 0) :=
  ⟨by decide, by decide⟩

/-- C1 (amended).  The selector keys on the language field of the
word_selected event itself, not on the stored round language.  When the
event carries language l: if any card of language l has at least one
marked word, the selected index is that of the first stored card of
language l attaining the maximum marked count among cards of language l
(stored-order tie-break: every earlier card of that language is strictly
below the winner); otherwise the first stored card attaining the global
maximum marked count, which is index 0 when no card has any marks.  When
the event carries no language field - the documented message shape - no
card matches the language test and the selector always returns that global
best.  The word_selected case of the dispatcher sets selectedCardIndex to
exactly this selection computed on the freshly marked store.  On cards
A (es, 2 marked), B (es, 2 marked), C (en, 5 marked): an event carrying es
yields index 0 (A), an event without a language field yields index 2 (C). -/
theorem best_card_selection :
    (∀ (cards : List BingoCard) (lang : String),
      ((∃ c ∈ cards, c.language = lang ∧ 0 < c.markedWords.length) →
        ∃ j cj, cards[j]? = some cj ∧ selectBestCard cards (some lang) = j ∧
          cj.language = lang ∧ 0 < cj.markedWords.length ∧
          (∀ (k : Nat) (ck : BingoCard), cards[k]? = some ck → ck.language = lang →
            ck.markedWords.length ≤ cj.markedWords.length) ∧
          (∀ (k : Nat) (ck : BingoCard), k < j → cards[k]? = some ck → ck.language = lang →
            ck.markedWords.length < cj.markedWords.length)) ∧
      ((∀ c ∈ cards, c.language = lang → c.markedWords.length = 0) →
        ((∃ c ∈ cards, 0 < c.markedWords.length) →
          ∃ j cj, cards[j]? = some cj ∧ selectBestCard cards (some lang) = j ∧
            (∀ (k : Nat) (ck : BingoCard), cards[k]? = some ck →
              ck.markedWords.length ≤ cj.markedWords.length) ∧
            (∀ (k : Nat) (ck : BingoCard), k < j → cards[k]? = some ck →
              ck.markedWords.length < cj.markedWords.length)) ∧
        ((∀ c ∈ cards, c.markedWords.length = 0) →
          selectBestCard cards (some lang) = 0))) ∧
    (∀ cards : List BingoCard,
      ((∃ c ∈ cards, 0 < c.markedWords.length) →
        ∃ j cj, cards[j]? = some cj ∧ selectBestCard cards none = j ∧
          (∀ (k : Nat) (ck : BingoCard), cards[k]? = some ck →
            ck.markedWords.length ≤ cj.markedWords.length) ∧
          (∀ (k : Nat) (ck : BingoCard), k < j → cards[k]? = some ck →
            ck.markedWords.length < cj.markedWords.length)) ∧
      ((∀ c ∈ cards, c.markedWords.length = 0) → selectBestCard cards none = 0)) ∧
    (∀ (st : AppState) (word : String) (cardIds : Option (List String))
        (msgLanguage : Option String),
      (handleWebSocketMessage st (.word_selected word cardIds msgLanguage)).selectedCardIndex =
        selectBestCard (markCards st.bingoCards word cardIds) msgLanguage) ∧
    selectBestCard [exCardA, exCardB, exCardC] (some "es") = 0 ∧
    selectBestCard [exCardA, exCardB, exCardC] none = 2 := by
  refine ⟨?_, ?_, fun st word cardIds msgLanguage => rfl, by decide, by decide⟩
  · intro cards lang
    constructor
    · intro hex
      have hex2 : ∃ c ∈ cards, (some c.language = some lang) ∧ 0 < c.markedWords.length := by
        obtain ⟨c, hc, h1, h2⟩ := hex
        exact ⟨c, hc, by simp [h1], h2⟩
      obtain ⟨j, cj, hj, heq, hp, hlt, hmax, hstrict⟩ :=
        scanPair_found (fun c => some c.language = some lang) cards 0 0 0 hex2
      have hpair : ((selScan (some lang) cards 0 ⟨0, 0, 0, 0⟩).maxMarkedForLanguage,
          (selScan (some lang) cards 0 ⟨0, 0, 0, 0⟩).bestIndexForLanguage) =
          scanPair (fun c => some c.language = some lang) cards 0 (0, 0) :=
        selScan_language (some lang) cards 0 ⟨0, 0, 0, 0⟩
      rw [heq, Prod.mk.injEq] at hpair
      obtain ⟨hm, hb⟩ := hpair
      refine ⟨j, cj, hj, ?_, by simpa using hp, hlt, ?_, ?_⟩
      · simp only [selectBestCard]
        rw [hm, hb, if_pos hlt]
        omega
      · intro k ck hk hlk
        exact hmax k ck hk (by simp [hlk])
      · intro k ck hklt hk hlk
        exact hstrict k ck hklt hk (by simp [hlk])
    · intro hnone
      exact selectBestCard_global cards (some lang)
        (fun c hc hp => hnone c hc (by simpa using hp))
  · intro cards
    exact selectBestCard_global cards none (fun c hc hp => by simp at hp)

/-- C1 witness: both selection branches instantiated on the A/B/C store
(the language-restricted branch for an event carrying es, the global
branch for an event without a language field), and the dispatcher link
instantiated on a populated concrete state. -/
theorem best_card_selection_witness :
    (∃ j cj, ([exCardA, exCardB, exCardC] : List BingoCard)[j]? = some cj ∧
      selectBestCard [exCardA, exCardB, exCardC] (some "es") = j ∧
      cj.language = "es" ∧ 0 < cj.markedWords.length ∧
      (∀ (k : Nat) (ck : BingoCard),
        ([exCardA, exCardB, exCardC] : List BingoCard)[k]? = some ck →
        ck.language = "es" → ck.markedWords.length ≤ cj.markedWords.length) ∧
      (∀ (k : Nat) (ck : BingoCard), k < j →
        ([exCardA, exCardB, exCardC] : List BingoCard)[k]? = some ck →
        ck.language = "es" → ck.markedWords.length < cj.markedWords.length)) ∧
    (∃ j cj, ([exCardA, exCardB, exCardC] : List BingoCard)[j]? = some cj ∧
      selectBestCard [exCardA, exCardB, exCardC] none = j ∧
      (∀ (k : Nat) (ck : BingoCard),
        ([exCardA, exCardB, exCardC] : List BingoCard)[k]? = some ck →
        ck.markedWords.length ≤ cj.markedWords.length) ∧
      (∀ (k : Nat) (ck : BingoCard), k < j →
        ([exCardA, exCardB, exCardC] : List BingoCard)[k]? = some ck →
        ck.markedWords.length < cj.markedWords.length)) ∧
    (handleWebSocketMessage
        { initState with bingoCards := [exCardA, exCardB, exCardC], currentLanguage := "es" }
        (.word_selected "a1" (some ["A"]) (some "es"))).selectedCardIndex =
      selectBestCard (markCards [exCardA, exCardB, exCardC] "a1" (some ["A"])) (some "es") :=
  ⟨(best_card_selection.1 [exCardA, exCardB, exCardC] "es").1
     ⟨exCardA, by simp, by decide, by decide⟩,
   (best_card_selection.2.1 [exCardA, exCardB, exCardC]).1
     ⟨exCardC, by simp, by decide⟩,
   best_card_selection.2.2.1
     { initState with bingoCards := [exCardA, exCardB, exCardC], currentLanguage := "es" }
     "a1" (some ["A"]) (some "es")⟩

/- Helper lemmas about the transmission subsystem. -/

/-- sendBingoCard never changes the card store. -/
theorem sendBingoCard_bingoCards (s : TxState) (card : BingoCard) :
    (sendBingoCard s card).bingoCards = s.bingoCards := by
  rw [sendBingoCard]
  split <;> rfl

/-- sendBingoCard never changes the sendCalls trace. -/
theorem sendBingoCard_sendCalls (s : TxState) (card : BingoCard) :
    (sendBingoCard s card).sendCalls = s.sendCalls := by
  rw [sendBingoCard]
  split <;> rfl

/-- sendBingoCard on a socket that is not open does nothing at all. -/
theorem sendBingoCard_closed (s : TxState) (card : BingoCard) (h : s.wsOpen = false) :
    sendBingoCard s card = s := by
  rw [sendBingoCard, if_neg (by simp [h])]

/-- findIdx? of the untransmitted test returns none on a fully transmitted
list, from any start index. -/
theorem findIdx?_none_of_all_transmitted :
    ∀ (A : List BingoCard) (i : Nat), (∀ c ∈ A, c.transmitted = true) →
      A.findIdx? (fun card => !card.transmitted) i = none := by
  intro A
  induction A with
  | nil => intro i _; rfl
  | cons a A ih =>
    intro i h
    rw [List.findIdx?_cons, if_neg (by simp [h a (by simp)])]
    exact ih (i + 1) fun c hc => h c (by simp [hc])

/-- findIdx? of the untransmitted test on a transmitted prefix followed by
an untransmitted card returns the position of that card. -/
theorem findIdx?_first_untransmitted :
    ∀ (A : List BingoCard) (b : BingoCard) (B : List BingoCard) (i : Nat),
      (∀ c ∈ A, c.transmitted = true) → b.transmitted = false →
      (A ++ b :: B).findIdx? (fun card => !card.transmitted) i = some (i + A.length) := by
  intro A
  induction A with
  | nil =>
    intro b B i _ hb
    rw [List.nil_append, List.findIdx?_cons, if_pos (by simp [hb])]
    simp
  | cons a A ih =>
    intro b B i hA hb
    rw [List.cons_append, List.findIdx?_cons, if_neg (by simp [hA a (by simp)])]
    rw [ih b B (i + 1) (fun c hc => hA c (by simp [hc])) hb]
    congr 1
    simp
    omega

/-- Optional indexing at the length of the left part of an append hits the
head of the right part. -/
theorem getElem?_append_cons {α : Type} (A B : List α) (b : α) :
    (A ++ b :: B)[A.length]? = some b := by
  rw [List.getElem?_append_right (Nat.le_refl A.length)]
  simp

/-- Marking at the position just past a prefix rewrites exactly the head of
the suffix. -/
theorem markTransmittedAt_append (A : List BingoCard) (b : BingoCard) (B : List BingoCard) :
    markTransmittedAt (A ++ b :: B) A.length = A ++ { b with transmitted := true } :: B := by
  induction A with
  | nil => rfl
  | cons a A ih => simp [markTransmittedAt, ih]

/-- Reading back the marked position gives the marked card. -/
theorem markTransmittedAt_getElem? (l : List BingoCard) (i : Nat) :
    (markTransmittedAt l i)[i]? = l[i]?.map (fun c => { c with transmitted := true }) := by
  induction l generalizing i with
  | nil => simp [markTransmittedAt]
  | cons c rest ih =>
    match i with
    | 0 => simp [markTransmittedAt]
    | n + 1 => simpa [markTransmittedAt] using ih n

/-- A drain step preserves the transmission invariant. -/
theorem transmitNextCard_inv (s : TxState) (h : TxInv s) : TxInv (transmitNextCard s) := by
  obtain ⟨A, B, hcards, hA, hB, hcalls⟩ := h
  rcases B with _ | ⟨b, Brest⟩
  · have hall : ∀ c ∈ s.bingoCards, c.transmitted = true := by
      rw [hcards]
      simpa using hA
    have hfind : s.bingoCards.findIdx? (fun card => !card.transmitted) = none :=
      findIdx?_none_of_all_transmitted s.bingoCards 0 hall
    have hstep : transmitNextCard s = { s with isTransmitting := false } := by
      rw [transmitNextCard, hfind]
    rw [hstep]
    exact ⟨A, [], hcards, hA, by simp, hcalls⟩
  · have hb : b.transmitted = false := hB b (by simp)
    have hBrest : ∀ c ∈ Brest, c.transmitted = false := fun c hc => hB c (by simp [hc])
    have hfind : s.bingoCards.findIdx? (fun card => !card.transmitted) = some A.length := by
      rw [hcards]
      simpa using findIdx?_first_untransmitted A b Brest 0 hA hb
    have hget : s.bingoCards[A.length]? = some b := by
      rw [hcards]
      exact getElem?_append_cons A Brest b
    have hmark : markTransmittedAt s.bingoCards A.length =
        A ++ { b with transmitted := true } :: Brest := by
      rw [hcards]
      exact markTransmittedAt_append A b Brest
    have hstep : transmitNextCard s =
        { sendBingoCard { s with sendCalls := s.sendCalls ++ [payloadOf b] } b with
            bingoCards := A ++ { b with transmitted := true } :: Brest,
            pendingTimer := some (A ++ { b with transmitted := true } :: Brest) } := by
      simp only [transmitNextCard, hfind, hget, hmark]
    rw [hstep]
    refine ⟨A ++ [{ b with transmitted := true }], Brest, by simp, ?_, hBrest, ?_⟩
    · intro c hc
      rcases List.mem_append.mp hc with hc1 | hc2
      · exact hA c hc1
      · rw [List.mem_singleton.mp hc2]
    · show (sendBingoCard { s with sendCalls := s.sendCalls ++ [payloadOf b] } b).sendCalls =
        (A ++ [{ b with transmitted := true }]).map payloadOf
      rw [sendBingoCard_sendCalls]
      show s.sendCalls ++ [payloadOf b] = (A ++ [{ b with transmitted := true }]).map payloadOf
      rw [hcalls, List.map_append]
      rfl

/-- Every event of the transmission subsystem preserves the invariant. -/
theorem txStep_inv (s : TxState) (e : TxEvent) (hv : validEvent e) (h : TxInv s) :
    TxInv (txStep s e) := by
  obtain ⟨A, B, hcards, hA, hB, hcalls⟩ := h
  match e with
  | .addCards newCards =>
    simp only [txStep]
    by_cases hemp : newCards.isEmpty
    · rw [if_pos hemp]
      exact ⟨A, B, hcards, hA, hB, hcalls⟩
    · rw [if_neg hemp]
      have hmem : ∀ c ∈ B ++ newCards, c.transmitted = false := by
        intro c hc
        rcases List.mem_append.mp hc with hc1 | hc2
        · exact hB c hc1
        · exact hv c hc2
      split
      · exact transmitNextCard_inv _
          ⟨A, B ++ newCards, by simp [hcards], hA, hmem, hcalls⟩
      · exact ⟨A, B ++ newCards, by simp [hcards], hA, hmem, hcalls⟩
  | .timerFires =>
    rcases htimer : s.pendingTimer with _ | snapshot <;> simp only [txStep, htimer]
    · exact ⟨A, B, hcards, hA, hB, hcalls⟩
    · split
      · exact transmitNextCard_inv _ ⟨A, B, hcards, hA, hB, hcalls⟩
      · exact ⟨A, B, hcards, hA, hB, hcalls⟩
  | .socketCloses => exact ⟨A, B, hcards, hA, hB, hcalls⟩

/-- Folding valid events preserves the invariant. -/
theorem txFold_inv :
    ∀ (events : List TxEvent) (s : TxState), TxInv s → (∀ e ∈ events, validEvent e) →
      TxInv (events.foldl txStep s) := by
  intro events
  induction events with
  | nil => intro s h _; exact h
  | cons e rest ih =>
    intro s h hv
    exact ih (txStep s e) (txStep_inv s e (hv e (by simp)) h)
      (fun e2 he => hv e2 (by simp [he]))

/-- Every state reachable by valid events satisfies the invariant. -/
theorem txRun_inv (events : List TxEvent) (hv : ∀ e ∈ events, validEvent e) :
    TxInv (txRun events) :=
  txFold_inv events txInit ⟨[], [], rfl, by simp, by simp, rfl⟩ hv

/-- C7.  Send-failure semantics: when the socket is not open at the moment
a card's send is attempted, sendBingoCard drops the frame silently (the
wire trace is unchanged, no error is surfaced, nothing is buffered), yet
the drain still records the attempt and marks the card transmitted; and in
every reachable state of the transmission subsystem the cards handed to
sendBingoCard are exactly the transmitted cards of the store, each once, so
a card marked transmitted is never handed to send again - there is no
retry path. -/
theorem send_failure_semantics :
    (∀ (s : TxState) (i : Nat) (card : BingoCard),
      s.wsOpen = false →
      s.bingoCards.findIdx? (fun c => !c.transmitted) = some i →
      s.bingoCards[i]? = some card →
      (transmitNextCard s).wire = s.wire ∧
      (transmitNextCard s).sendCalls = s.sendCalls ++ [payloadOf card] ∧
      (transmitNextCard s).bingoCards[i]? = some { card with transmitted := true } ∧
      (transmitNextCard s).pendingTimer = some (transmitNextCard s).bingoCards) ∧
    (∀ events : List TxEvent, (∀ e ∈ events, validEvent e) →
      (txRun events).sendCalls =
        ((txRun events).bingoCards.filter (fun c => c.transmitted)).map payloadOf) := by
  constructor
  · intro s i card hw hfind hget
    have hsend : sendBingoCard { s with sendCalls := s.sendCalls ++ [payloadOf card] } card =
        { s with sendCalls := s.sendCalls ++ [payloadOf card] } :=
      sendBingoCard_closed _ card hw
    have hstep : transmitNextCard s =
        { s with sendCalls := s.sendCalls ++ [payloadOf card],
                 bingoCards := markTransmittedAt s.bingoCards i,
                 pendingTimer := some (markTransmittedAt s.bingoCards i) } := by
      simp only [transmitNextCard, hfind, hget, hsend]
    rw [hstep]
    refine ⟨rfl, rfl, ?_, rfl⟩
    show (markTransmittedAt s.bingoCards i)[i]? = some { card with transmitted := true }
    rw [markTransmittedAt_getElem?, hget, Option.map_some']
  · intro events hv
    obtain ⟨A, B, hcards, hA, hB, hcalls⟩ := txRun_inv events hv
    rw [hcards, hcalls, List.filter_append]
    have h1 : A.filter (fun c => c.transmitted) = A :=
      List.filter_eq_self.mpr fun a ha => hA a ha
    have h2 : B.filter (fun c => c.transmitted) = [] :=
      List.filter_eq_nil_iff.mpr fun a ha => by simp [hB a ha]
    rw [h1, h2, List.append_nil]

/-- C7 witness: a drain step on a closed socket with one untransmitted card
writes nothing on the wire, records the attempt and marks the card; and the
attempted/transmitted correspondence evaluated after a concrete event
sequence. -/
theorem send_failure_semantics_witness :
    (transmitNextCard closedSocketState).wire = closedSocketState.wire ∧
    (transmitNextCard closedSocketState).sendCalls =
      closedSocketState.sendCalls ++ [payloadOf stuckCard1] ∧
    (transmitNextCard closedSocketState).bingoCards[0]? =
      some { stuckCard1 with transmitted := true } ∧
    (txRun stuckEvents).sendCalls =
      ((txRun stuckEvents).bingoCards.filter (fun c => c.transmitted)).map payloadOf := by
  have h := send_failure_semantics.1 closedSocketState 0 stuckCard1 rfl (by decide) (by decide)
  have hv : ∀ e ∈ stuckEvents, validEvent e := by
    intro e he
    simp only [stuckEvents, List.mem_cons, List.not_mem_nil, or_false] at he
    rcases he with rfl | rfl | rfl
    · exact fun card hc => by rw [List.mem_singleton.mp hc]; rfl
    · exact fun card hc => by rw [List.mem_singleton.mp hc]; rfl
    · trivial
  exact ⟨h.1, h.2.1, h.2.2.1, send_failure_semantics.2 stuckEvents hv⟩

/-- C2.  The claim asserts exactly-once ordered delivery for every sequence
of card additions.  Ordering and at-most-once hold (see the invariant of
send_failure_semantics), but exactly-once fails: the 100ms recheck of
transmitNextCard consults the updatedCards snapshot captured by its closure
rather than the live store, so a card added during the pacing delay of the
final drain step is never picked up.  Concretely: add stuckCard1 (the drain
starts, sends it, and schedules the timer over the snapshot in which every
card is transmitted), add stuckCard2 while the timer is pending (the
length-keyed effect sees isTransmitting = true and does nothing), then let
the timer fire (the snapshot has no untransmitted card, so the drain
stops).  The resulting state has sent only stuckCard1, holds stuckCard2
untransmitted, is idle (isTransmitting false, no pending timer), and is a
fixpoint of further timer events: stuckCard2 is never sent. -/
theorem transmission_stuck_trace :
    (txRun stuckEvents).sendCalls = [payloadOf stuckCard1] ∧
    (txRun stuckEvents).wire = [payloadOf stuckCard1] ∧
    (txRun stuckEvents).bingoCards =
      [{ stuckCard1 with transmitted := true }, stuckCard2] ∧
    (txRun stuckEvents).isTransmitting = false ∧
    (txRun stuckEvents).pendingTimer = none ∧
    txStep (txRun stuckEvents) .timerFires = txRun stuckEvents :=
  ⟨by decide, by decide, by decide, by decide, by decide, by decide⟩
